import Mathlib

/-!
Shallow embedding of the core of the Dataflow Python SDK sample
(`google/cloud/dataflow/pvalue.py` together with the
`top_wikipedia_sessions` example) and proofs of the specification's
claims about it.  Definitions translate the Python source; parts of the
repository whose implementation files are absent (windowing, combiners,
side-input resolution at execution time) are modelled from the
specification text and are marked as such in their doc comments.
-/

namespace DataflowSDK

/-- A tag value passed to `DoOutputsTuple.__getitem__`: Python permits
`None`, a string, or an integer (integers are coerced to strings by the
lookup). -/
inductive PyTag where
  | pynone : PyTag
  | pystr (s : String) : PyTag
  | pyint (i : Int) : PyTag
deriving DecidableEq, Repr

/-- State of a `DoOutputsTuple` (pvalue.py, class `DoOutputsTuple`)
together with the mutable state of its producing transform that
`__getitem__` touches.  PCollections are identified by the numeric id
they receive on creation (`nextId` is the id the next created
PCollection will get); `pcolls` is the tag-to-PCollection cache and
`sideOutputTags` models `self._transform.side_output_tags`. -/
structure DoState where
  tags : List String
  mainTag : Option String
  pcolls : List (Option String × Nat)
  sideOutputTags : List String
  nextId : Nat
deriving DecidableEq, Repr

/-- Python `set.add`: insert a string into the set (modelled as a
duplicate-free list) if it is not already present. -/
def setAdd (s : String) (l : List String) : List String :=
  if s ∈ l then l else s :: l

/-- The caching tail of `DoOutputsTuple.__getitem__` (pvalue.py lines
200-213): return the cached PCollection for the (already normalized)
tag if present; otherwise record the tag in the producing transform's
`side_output_tags` (unless it is the main-output tag `None`), create a
fresh PCollection, cache it and return it. -/
def lookupOrCreate (st : DoState) (key : Option String) :
    Nat × DoState :=
  match st.pcolls.lookup key with
  | some pid => (pid, st)
  | none =>
    let sideTags := match key with
      | some s => setAdd s st.sideOutputTags
      | none => st.sideOutputTags
    (st.nextId,
      { st with
        pcolls := (key, st.nextId) :: st.pcolls
        sideOutputTags := sideTags
        nextId := st.nextId + 1 })

/-- The coercion at the top of `DoOutputsTuple.__getitem__` (pvalue.py
lines 192-193): integer tags become their decimal string form; other
tags are unchanged. -/
def coerceTag : PyTag → Option String
  | .pynone => none
  | .pystr s => some s
  | .pyint i => some (toString i)

/-- `DoOutputsTuple.__getitem__` (pvalue.py lines 187-213).  An `int`
tag is first coerced to its string form.  A tag equal to the main tag
is replaced by `None`; otherwise, if the declared side-tag list is
non-empty and does not contain the tag, a `ValueError` is raised.
Surviving tags are served from the cache or freshly created. -/
def getItem (st : DoState) (tag : PyTag) :
    Except String (Nat × DoState) :=
  let t0 := coerceTag tag
  if t0 = st.mainTag then
    .ok (lookupOrCreate st none)
  else if !st.tags.isEmpty && (match t0 with
      | some s => !(st.tags.contains s)
      | none => true) then
    .error "Tag is neither the main tag nor any of the side tags"
  else
    .ok (lookupOrCreate st t0)

/-- A Python runtime value as far as the side-input machinery observes
it: `pynone` is Python's `None`; other constructors carry ints and
strings.  Only the distinctions the claims exercise are represented. -/
inductive PyVal where
  | pynone : PyVal
  | pyint (i : Int) : PyVal
  | pystr (s : String) : PyVal
deriving DecidableEq, Repr

/-- The transforms applied to a PCollection that the claims mention:
the `combiners.ToList` and `combiners.ToDict` combiner transforms used
by `AsList`/`AsDict` (pvalue.py lines 340 and 365). -/
inductive TransformKind where
  | toList : TransformKind
  | toDict : TransformKind
deriving DecidableEq, Repr

/-- A PCollection of the graph, identified by how it was produced: a
`source` id, or the output of applying a transform to another
PCollection (the `pcoll | transform` operator, `PValue.__or__`). -/
inductive PColl where
  | source (id : Nat) : PColl
  | applied (t : TransformKind) (input : PColl) : PColl
deriving DecidableEq, Repr

/-- The `AsSingleton` marker (pvalue.py lines 256-285).  The Python
constructor is `def __init__(self, pvalue, default_value=_NO_DEFAULT)`
where `_NO_DEFAULT = object()` is a private unique sentinel: here
`defaultValue = none` models the `_NO_DEFAULT` sentinel (no default
supplied) and `defaultValue = some v` models a user-supplied default
`v` — which may itself be the Python value `None`. -/
structure AsSingletonM (α : Type) where
  pvalue : PColl
  defaultValue : Option α
deriving DecidableEq, Repr

/-- `AsSingleton(pcoll)` with the `default_value` argument omitted:
`defaultValue` stays at the `_NO_DEFAULT` sentinel. -/
def mkAsSingleton (α : Type) (p : PColl) : AsSingletonM α :=
  ⟨p, none⟩

/-- `AsSingleton(pcoll, default_value=v)` with an explicit default,
which may be Python's `None` (e.g. `v = PyVal.pynone`). -/
def mkAsSingletonDefault {α : Type} (p : PColl) (v : α) :
    AsSingletonM α :=
  ⟨p, some v⟩

/-- What resolving a singleton side input hands to the user function:
either a genuine value of the source collection (or the user default),
or the `EmptySideInput` sentinel object (pvalue.py lines 368-378),
which is an instance of a dedicated class and hence distinguishable
from every user value. -/
inductive SideInputResult (α : Type) where
  | value (v : α) : SideInputResult α
  | emptySentinel : SideInputResult α
deriving DecidableEq, Repr

/-- Modelled from the spec: execution-time resolution of an
`AsSingleton` side input (the runner code performing it is not in the
repository sample; spec §4.2: "`AsSingleton` yields the one element of
the (per-window) wrapped Collection, the caller's default if none
exists, or the Empty-Side-Input sentinel if no default was given").
`contents` is the materialized source Collection for the window. -/
def resolveSingleton {α : Type} (m : AsSingletonM α)
    (contents : List α) : SideInputResult α :=
  match contents with
  | v :: _ => .value v
  | [] =>
    match m.defaultValue with
    | some d => .value d
    | none => .emptySentinel

/-- `AsList(pcoll)` (pvalue.py lines 318-340): apply the
`combiners.ToList` combiner transform to `pcoll` (via the `|`
operator) and wrap the resulting one-element PCollection in
`AsSingleton` with no default value. -/
def asList (p : PColl) : AsSingletonM PyVal :=
  mkAsSingleton PyVal (PColl.applied .toList p)

/-- `AsDict(pcoll)` (pvalue.py lines 343-365): apply the
`combiners.ToDict` combiner transform to `pcoll` (via the `|`
operator) and wrap the resulting one-element PCollection in
`AsSingleton` with no default value. -/
def asDict (p : PColl) : AsSingletonM PyVal :=
  mkAsSingleton PyVal (PColl.applied .toDict p)

/-- A windowed value as held inside a PCollection at execution time:
an underlying value plus windowing metadata
(`_get_un_windowed_value` strips it, keeping only `.value`). -/
structure WindowedV where
  value : PyVal
  timestampMillis : Nat
deriving DecidableEq, Repr

/-- A bound runner, abstracted to the one capability
`PCollection._get_values` uses after `runner.run`: producing the final
windowed contents of a node (`runner.get_pvalue`). -/
structure RunnerM where
  getPValue : PColl → List WindowedV

/-- The runner-absence error raised by `PCollection._get_values`
(`error.RunnerError` in the source). -/
inductive RunnerErr where
  | runnerError : RunnerErr
deriving DecidableEq, Repr

/-- `PCollection._get_values` / its inner `_get_internal` (pvalue.py
lines 125-139) with the call-site runner argument made explicit (the
`_get_values` call site always passes no runner).  The effective
runner is `runner or self.pipeline.runner`; if neither is bound, a
`RunnerError` is raised before anything runs.  The boolean of the
result records whether the graph was executed (`runner.run` reached),
so absence of execution on the error path is provable. -/
def getInternal (callRunner : Option RunnerM)
    (pipelineRunner : Option RunnerM) (p : PColl) :
    Except RunnerErr (List PyVal) × Bool :=
  match callRunner.orElse (fun _ => pipelineRunner) with
  | none => (.error .runnerError, false)
  | some r => (.ok ((r.getPValue p).map (fun w => w.value)), true)

/-- `PCollection._get_values` (pvalue.py line 139): calls
`_get_internal(self)` with no runner supplied at the call. -/
def getValues (pipelineRunner : Option RunnerM) (p : PColl) :
    Except RunnerErr (List PyVal) × Bool :=
  getInternal none pipelineRunner p

/-- The element order used to sort a top-N buffer descending: `a` may
come before `b` exactly when `a` is not less than `b` under the
supplied strict-ordering comparator `lt` (so the greatest elements come
first and ties keep their relative order under a stable sort). -/
def ltLe {α : Type} (lt : α → α → Bool) (a b : α) : Bool :=
  !(lt a b)

/-- Ordered insertion into a descending-sorted buffer: the element
lands in front of the first entry it is not less than, so on ties the
earlier-arrived entry keeps its place (stability). -/
def insertDesc {α : Type} (lt : α → α → Bool) (x : α) :
    List α → List α
  | [] => [x]
  | y :: l => if ltLe lt x y then x :: y :: l else y :: insertDesc lt x l

/-- Sort a buffer descending by the comparator `lt` (stable insertion
sort), greatest first. -/
def sortDesc {α : Type} (lt : α → α → Bool) : List α → List α
  | [] => []
  | x :: l => insertDesc lt x (sortDesc lt l)

/-- Modelled from the spec: the accumulator normal form of the bounded
top-N combiner (`combiners.TopCombineFn`, whose implementation module
is not in the repository sample; spec §4.4: the accumulator "is the
current best-N sequence under the supplied ordering").  `topNAcc`
computes the best-N sequence of a buffer: sort descending by `lt`,
truncate to `n`. -/
def topNAcc {α : Type} (lt : α → α → Bool) (n : Nat) (l : List α) :
    List α :=
  (sortDesc lt l).take n

/-- Modelled from the spec: the fold-one-element-in operation of the
top-N combiner (spec §3 Combiner (b)): add the element to the current
best-N buffer and re-normalize. -/
def addInput {α : Type} (lt : α → α → Bool) (n : Nat)
    (acc : List α) (x : α) : List α :=
  topNAcc lt n (acc ++ [x])

/-- Modelled from the spec: merging two top-N accumulators (spec §4.4:
"concatenate, sort by the ordering, truncate to N"). -/
def mergeAccs {α : Type} (lt : α → α → Bool) (n : Nat)
    (a b : List α) : List α :=
  topNAcc lt n (a ++ b)

/-- A shard partition together with an order of merging the per-shard
accumulators: leaves are shards (sub-lists of the input), nodes merge
the two accumulators below them in the given order. -/
inductive MergeTree (α : Type) where
  | leaf (shard : List α) : MergeTree α
  | node (l r : MergeTree α) : MergeTree α

/-- All elements covered by a merge tree, shard by shard. -/
def MergeTree.flatten {α : Type} : MergeTree α → List α
  | .leaf shard => shard
  | .node l r => l.flatten ++ r.flatten

/-- Run the distributed combine described by a merge tree: each shard
folds its elements into a fresh accumulator; each node merges the two
accumulators below it. -/
def evalTree {α : Type} (lt : α → α → Bool) (n : Nat) :
    MergeTree α → List α
  | .leaf shard => shard.foldl (addInput lt n) []
  | .node l r => mergeAccs lt n (evalTree lt n l) (evalTree lt n r)

/-- The descending buffer order as a relation (used to state
sortedness of top-N buffers). -/
def descRel {α : Type} (lt : α → α → Bool) : α → α → Prop :=
  fun a b => ltLe lt a b = true

/-- One Wikipedia edit record as the test supplies it (a JSON object
with a `contributor_username` and a float `timestamp` in seconds; all
timestamps of the test are exact multiples of a millisecond, so they
are carried as millisecond naturals). -/
structure WikiEdit where
  contributor : String
  timestampMillis : Nat
deriving DecidableEq, Repr

/-- `ONE_HOUR_IN_SECONDS` of top_wikipedia_sessions.py, in
milliseconds. -/
def oneHourMillis : Nat := 3600 * 1000

/-- `THIRTY_DAYS_IN_SECONDS` of top_wikipedia_sessions.py, in
milliseconds. -/
def thirtyDaysMillis : Nat := 30 * 24 * oneHourMillis

/-- The nine edit events of `ComputeTopSessionsTest.EDITS`
(top_wikipedia_sessions_test.py lines 38-50), in test order; the last
timestamp is `35 * 24 * 3.600 = 3024.0` seconds. -/
def testEdits : List WikiEdit :=
  [⟨"user1", 0⟩, ⟨"user1", 1⟩, ⟨"user1", 2⟩,
   ⟨"user2", 0⟩, ⟨"user2", 1⟩, ⟨"user2", 3601⟩, ⟨"user2", 3602⟩,
   ⟨"user2", 7200000⟩,
   ⟨"user3", 3024000⟩]

/-- `ExtractUserAndTimestampDoFn` (top_wikipedia_sessions.py lines
52-60): each record with a contributor becomes a `(user, timestamp)`
timestamped value (all test records have a contributor). -/
def extractEvents (edits : List WikiEdit) : List (String × Nat) :=
  edits.map (fun e => (e.contributor, e.timestampMillis))

/-- The sampling filter of `ComputeTopSessions.apply`
(`abs(hash(x)) <= sys.maxint * threshold`) at threshold `1.0`:
modelled as passing every element (spec §9 treats the hashing trick as
an external, replaceable sampling strategy; at threshold 1 the bound
is the full hash range). -/
def sampleAll (events : List (String × Nat)) : List (String × Nat) :=
  events

/-- Sweep phase of session-window merging (spec §4.3: "standard
interval-merge: sort by start, sweep, union if next start < current
end"): `s, e` bound the session being grown, `cnt` counts its
elements; remaining starts are sorted ascending and each contributes
a window `[t, t + gap)`. -/
def sessionSweep (gap s e cnt : Nat) : List Nat → List (Nat × Nat × Nat)
  | [] => [(s, e, cnt)]
  | t :: ts =>
    if t < e then sessionSweep gap s (max e (t + gap)) (cnt + 1) ts
    else (s, e, cnt) :: sessionSweep gap t (t + gap) 1 ts

/-- Modelled from the spec: session windowing of one key's timestamps
(`window.Sessions(gap_size=...)` plus the merge pass; the windowing
module is not in the repository sample).  Each timestamp is assigned
the window `[t, t + gap)` (spec §3), then transitively overlapping
windows are merged by the canonical interval sweep (spec §4.3),
producing `(start, end, elementCount)` per final session.  The
timestamps are sorted ascending (descending by the flipped
comparator) before the sweep. -/
def mergeSessions (gap : Nat) (times : List Nat) : List (Nat × Nat × Nat) :=
  match sortDesc (fun a b => decide (b < a)) times with
  | [] => []
  | t :: ts => sessionSweep gap t (t + gap) 1 ts

/-- The keys of a keyed event list, in first-appearance order, each
once (the per-key grouping of `Count.PerElement`). -/
def keysOf (events : List (String × Nat)) : List String :=
  events.foldl (fun acc e => if e.1 ∈ acc then acc else acc ++ [e.1]) []

/-- The timestamps carried by one key. -/
def timesOf (u : String) (events : List (String × Nat)) : List Nat :=
  (events.filter (fun e => e.1 == u)).map (fun e => e.2)

/-- One output element of `ComputeSessions`: a `(user, count)` pair in
its merged session window. -/
structure SessionRecord where
  user : String
  count : Nat
  winStart : Nat
  winEnd : Nat
deriving DecidableEq, Repr

/-- `ComputeSessions` (top_wikipedia_sessions.py lines 63-77):
session-window the events with a one-hour gap, then
`Count.PerElement` counts, per key and per final session window, the
elements of that window (combiner semantics modelled from spec
§4.3-§4.4: grouping and combining operate per final window and per
key). -/
def computeSessions (gap : Nat) (events : List (String × Nat)) :
    List SessionRecord :=
  (keysOf events).flatMap (fun u =>
    (mergeSessions gap (timesOf u events)).map (fun t =>
      ⟨u, t.2.2, t.1, t.2.1⟩))

/-- Render a natural number of milliseconds the way Python's `str`
renders the corresponding float number of seconds in the test's
expected strings: the integer part, a dot, and the non-zero
millisecond fraction with trailing zeros dropped (or `.0` when the
fraction is zero). -/
def fmtMillis (n : Nat) : String :=
  let whole := toString (n / 1000)
  let frac := n % 1000
  if frac = 0 then whole ++ ".0"
  else
    let digits :=
      if frac < 10 then "00" ++ toString frac
      else if frac < 100 then "0" ++ toString frac
      else toString frac
    whole ++ "." ++ String.mk (List.dropWhile (fun c => c = '0')
      digits.data.reverse).reverse

/-- `str(IntervalWindow)` as it appears in the expected output:
`[start, end)` (the windowing module defining it is not in the
repository sample; the format is read off the test's literal
strings). -/
def windowStr (s e : Nat) : String :=
  "[" ++ fmtMillis s ++ ", " ++ fmtMillis e ++ ")"

/-- An element flowing into `TopPerMonth`: the string-keyed count
produced by `SessionsToStringsDoFn` plus the element timestamp used by
the subsequent fixed-window assignment (modelled as the session
window's maximum contained timestamp, `end - 1` ms). -/
structure KeyedCount where
  key : String
  count : Nat
  timestampMillis : Nat
deriving DecidableEq, Repr

/-- `SessionsToStringsDoFn` (top_wikipedia_sessions.py lines 98-103):
prefix the count's key with the user and the session window it sits
in. -/
def sessionToString (r : SessionRecord) : KeyedCount :=
  ⟨r.user ++ " : " ++ windowStr r.winStart r.winEnd, r.count,
    r.winEnd - 1⟩

/-- The comparator handed to `TopCombineFn` by `TopPerMonth`
(top_wikipedia_sessions.py line 94):
`lambda first, second: first[1] < second[1]` on `(key, count)`
pairs. -/
def countLt (a b : String × Nat) : Bool :=
  decide (a.2 < b.2)

/-- The fixed-window indices populated by a list of elements, in
first-appearance order (modelled from spec §3: each timestamp maps
deterministically to exactly one fixed window, aligned to origin 0). -/
def windowIndicesOf (xs : List KeyedCount) : List Nat :=
  xs.foldl (fun acc k =>
    if k.timestampMillis / thirtyDaysMillis ∈ acc then acc
    else acc ++ [k.timestampMillis / thirtyDaysMillis]) []

/-- `TopPerMonth` (top_wikipedia_sessions.py lines 80-95): re-window
into 30-day fixed windows, then per window combine globally with
`TopCombineFn(10, countLt)` (without defaults: empty windows produce
nothing — only populated window indices appear).  Output: one
`(windowIndex, top-ten list)` pair per populated window. -/
def topPerMonth (xs : List KeyedCount) : List (Nat × List (String × Nat)) :=
  (windowIndicesOf xs).map (fun w =>
    (w, ((xs.filter (fun k => k.timestampMillis / thirtyDaysMillis = w)).map
      (fun k => (k.key, k.count))).foldl (addInput countLt 10) []))

/-- `FormatOutputDoFn` (top_wikipedia_sessions.py lines 106-114): for
each `(key, count)` entry of a window's top list, emit
`key : count : windowString` for the enclosing fixed window. -/
def formatOutput (tops : List (Nat × List (String × Nat))) : List String :=
  tops.flatMap (fun wt =>
    wt.2.map (fun kv =>
      kv.1 ++ " : " ++ toString kv.2 ++ " : " ++
        windowStr (wt.1 * thirtyDaysMillis) ((wt.1 + 1) * thirtyDaysMillis)))

/-- `ComputeTopSessions` (top_wikipedia_sessions.py lines 117-132):
the full pipeline — extract, sample, compute sessions, stringify,
top-per-month, format. -/
def computeTopSessions (edits : List WikiEdit) : List String :=
  formatOutput (topPerMonth
    (((computeSessions oneHourMillis (sampleAll (extractEvents edits)))).map
      sessionToString))

/-- `ComputeTopSessionsTest.EXPECTED` (top_wikipedia_sessions_test.py
lines 52-57). -/
def expectedTopSessions : List String :=
  ["user1 : [0.0, 3600.002) : 3 : [0.0, 2592000.0)",
   "user2 : [0.0, 3603.602) : 4 : [0.0, 2592000.0)",
   "user2 : [7200.0, 10800.0) : 1 : [0.0, 2592000.0)",
   "user3 : [3024.0, 6624.0) : 1 : [0.0, 2592000.0)"]

/-- The normalized cache key `__getitem__` uses after its first two
rewrites: integer tags coerced to strings, and the main tag replaced
by `None`. -/
def normKey (st : DoState) (tag : PyTag) : Option String :=
  if coerceTag tag = st.mainTag then none else coerceTag tag

/-- Thread a sequence of tag lookups through a `DoOutputsTuple`,
collecting the PCollection ids returned; `none` if any lookup
raises. -/
def lookupIds (st : DoState) : List PyTag → Option (List Nat)
  | [] => some []
  | t :: ts =>
    match getItem st t with
    | .error _ => none
    | .ok (p, st') => (lookupIds st' ts).map (fun l => p :: l)

/-- Run an arbitrary sequence of tag lookups against a
`DoOutputsTuple`, keeping only the evolving state: a successful lookup
leaves its updated state, a raising lookup leaves the state unchanged
(the `ValueError` in `__getitem__` is raised before any mutation). -/
def runTags (st : DoState) : List PyTag → DoState
  | [] => st
  | t :: ts =>
    match getItem st t with
    | .ok pr => runTags pr.2 ts
    | .error _ => runTags st ts

/-- A comparator with ties: order `(count, word)` pairs by count
alone, so distinct words with equal counts compare as ties. -/
def countOnlyLt (a b : Nat × String) : Bool :=
  decide (a.1 < b.1)

/-- A tie-free comparator on `(count, word)` pairs: by count, then by
the word's character sequence; on tie-free data (all counts distinct,
as in the autocomplete test's `{to:3, this:2, that:1}`) it orders
exactly by count. -/
def lexCountLt (a b : Nat × String) : Bool :=
  decide (a.1 < b.1) || (decide (a.1 = b.1) && decide (a.2.data < b.2.data))

/-! ### Order facts about the descending buffer order -/

theorem ltLe_total {α : Type} (lt : α → α → Bool)
    (hasym : ∀ a b, lt a b = true → lt b a = false) (a b : α) :
    ltLe lt a b = true ∨ ltLe lt b a = true := by
  cases h : lt a b with
  | false => left; simp [ltLe, h]
  | true => right; simp [ltLe, hasym a b h]

theorem ltLe_trans {α : Type} (lt : α → α → Bool)
    (htrans : ∀ a b c, lt a b = true → lt b c = true → lt a c = true)
    (hconn : ∀ a b, lt a b = false → lt b a = false → a = b)
    (a b c : α) (hab : ltLe lt a b = true) (hbc : ltLe lt b c = true) :
    ltLe lt a c = true := by
  simp only [ltLe, Bool.not_eq_true'] at hab hbc ⊢
  cases hba : lt b a with
  | true =>
    cases hac : lt a c with
    | false => rfl
    | true => rw [htrans b a c hba hac] at hbc; exact hbc
  | false => rw [hconn a b hab hba]; exact hbc

theorem ltLe_antisymm {α : Type} (lt : α → α → Bool)
    (hconn : ∀ a b, lt a b = false → lt b a = false → a = b)
    (a b : α) (hab : ltLe lt a b = true) (hba : ltLe lt b a = true) :
    a = b := by
  simp only [ltLe, Bool.not_eq_true'] at hab hba
  exact hconn a b hab hba

/-! ### The stable descending sort: permutation and sortedness -/

theorem insertDesc_perm {α : Type} (lt : α → α → Bool) (x : α)
    (l : List α) : List.Perm (insertDesc lt x l) (x :: l) := by
  induction l with
  | nil => exact List.Perm.refl _
  | cons y l ih =>
    by_cases h : ltLe lt x y = true
    · simp [insertDesc, h]
    · simp only [insertDesc, if_neg h]
      exact (ih.cons y).trans (List.Perm.swap x y l)

theorem sortDesc_perm {α : Type} (lt : α → α → Bool) (l : List α) :
    List.Perm (sortDesc lt l) l := by
  induction l with
  | nil => exact List.Perm.refl _
  | cons x l ih => exact (insertDesc_perm lt x (sortDesc lt l)).trans (ih.cons x)

theorem insertDesc_sorted {α : Type} (lt : α → α → Bool)
    (hasym : ∀ a b, lt a b = true → lt b a = false)
    (htrans : ∀ a b c, lt a b = true → lt b c = true → lt a c = true)
    (hconn : ∀ a b, lt a b = false → lt b a = false → a = b)
    (x : α) (l : List α) (hl : l.Sorted (descRel lt)) :
    (insertDesc lt x l).Sorted (descRel lt) := by
  induction l with
  | nil => simp [insertDesc, List.Sorted]
  | cons y l ih =>
    rw [List.sorted_cons] at hl
    by_cases h : ltLe lt x y = true
    · simp only [insertDesc, if_pos h]
      rw [List.sorted_cons]
      refine ⟨?_, List.sorted_cons.2 hl⟩
      intro b hb
      rcases List.mem_cons.1 hb with rfl | hbl
      · exact h
      · exact ltLe_trans lt htrans hconn x y b h (hl.1 b hbl)
    · simp only [insertDesc, if_neg h]
      rw [List.sorted_cons]
      refine ⟨?_, ih hl.2⟩
      intro b hb
      have hb' : b = x ∨ b ∈ l :=
        List.mem_cons.1 ((insertDesc_perm lt x l).mem_iff.1 hb)
      rcases hb' with hbx | hbl
      · rw [hbx]
        rcases ltLe_total lt hasym x y with hxy | hyx
        · exact absurd hxy h
        · exact hyx
      · exact hl.1 b hbl

theorem sortDesc_sorted {α : Type} (lt : α → α → Bool)
    (hasym : ∀ a b, lt a b = true → lt b a = false)
    (htrans : ∀ a b c, lt a b = true → lt b c = true → lt a c = true)
    (hconn : ∀ a b, lt a b = false → lt b a = false → a = b)
    (l : List α) : (sortDesc lt l).Sorted (descRel lt) := by
  induction l with
  | nil => simp [sortDesc, List.Sorted]
  | cons x l ih => exact insertDesc_sorted lt hasym htrans hconn x _ ih

theorem sortDesc_congr {α : Type} (lt : α → α → Bool)
    (hasym : ∀ a b, lt a b = true → lt b a = false)
    (htrans : ∀ a b c, lt a b = true → lt b c = true → lt a c = true)
    (hconn : ∀ a b, lt a b = false → lt b a = false → a = b)
    {l l' : List α} (h : List.Perm l l') : sortDesc lt l = sortDesc lt l' := by
  haveI : IsAntisymm α (descRel lt) :=
    ⟨fun a b hab hba => ltLe_antisymm lt hconn a b hab hba⟩
  exact List.eq_of_perm_of_sorted
    ((sortDesc_perm lt l).trans (h.trans (sortDesc_perm lt l').symm))
    (sortDesc_sorted lt hasym htrans hconn l)
    (sortDesc_sorted lt hasym htrans hconn l')

theorem topNAcc_congr {α : Type} (lt : α → α → Bool)
    (hasym : ∀ a b, lt a b = true → lt b a = false)
    (htrans : ∀ a b c, lt a b = true → lt b c = true → lt a c = true)
    (hconn : ∀ a b, lt a b = false → lt b a = false → a = b)
    (n : Nat) {l l' : List α} (h : List.Perm l l') :
    topNAcc lt n l = topNAcc lt n l' := by
  unfold topNAcc
  rw [sortDesc_congr lt hasym htrans hconn h]

/-! ### Truncation lemmas: the best-N prefix absorbs dominated input -/

theorem take_all_eq_replicate {α : Type} (n : Nat) (L : List α) (c : α)
    (hn : n ≤ L.length) (h : ∀ z ∈ L.take n, z = c) :
    L.take n = List.replicate n c := by
  refine List.eq_replicate_iff.2 ⟨?_, h⟩
  simp [Nat.min_eq_left hn]

theorem take_insertDesc {α : Type} (lt : α → α → Bool)
    (hconn : ∀ a b, lt a b = false → lt b a = false → a = b)
    (x : α) :
    ∀ (L : List α) (n : Nat), L.Sorted (descRel lt) → n ≤ L.length →
      (∀ y ∈ L.take n, ltLe lt y x = true) →
      (insertDesc lt x L).take n = L.take n := by
  intro L
  induction L with
  | nil =>
    intro n _ hn _
    have hn0 : n = 0 := Nat.le_zero.1 hn
    subst hn0
    simp
  | cons y L ih =>
    intro n hs hn hall
    match n with
    | 0 => simp
    | Nat.succ m =>
      rw [List.sorted_cons] at hs
      have hm : m ≤ L.length := by
        simp only [List.length_cons] at hn
        omega
      have hy : ltLe lt y x = true := hall y (by simp)
      have hall' : ∀ z ∈ L.take m, ltLe lt z x = true := by
        intro z hz
        exact hall z (by simp [hz])
      by_cases h : ltLe lt x y = true
      · have hxy : x = y := ltLe_antisymm lt hconn x y h hy
        simp only [insertDesc, if_pos h, List.take_succ_cons]
        have hzy : ∀ z ∈ L.take m, z = y := by
          intro z hz
          refine ltLe_antisymm lt hconn z y (hxy ▸ hall' z hz) ?_
          exact hs.1 z (List.take_subset m L hz)
        have h1 : L.take m = List.replicate m y :=
          take_all_eq_replicate m L y hm hzy
        have h2 : (y :: L).take m = List.replicate m y := by
          cases m with
          | zero => simp
          | succ k =>
            rw [List.take_succ_cons]
            have hsub : ∀ z ∈ L.take k, z ∈ L.take (k + 1) := by
              intro z hz
              have hzz : z ∈ (L.take (k + 1)).take k := by
                rw [List.take_take, Nat.min_eq_left (Nat.le_succ k)]
                exact hz
              exact List.take_subset k (L.take (k + 1)) hzz
            have hk : L.take k = List.replicate k y :=
              take_all_eq_replicate k L y (by omega)
                (fun z hz => hzy z (hsub z hz))
            rw [hk, List.replicate_succ]
        rw [hxy, h1, h2]
      · simp only [insertDesc, if_neg h, List.take_succ_cons]
        rw [ih m hs.2 hm hall']

theorem filter_eq_takeWhile_sorted {α : Type} (lt : α → α → Bool)
    (p : α → Bool)
    (hclosed : ∀ a b, descRel lt a b → p b = true → p a = true) :
    ∀ (L : List α), L.Sorted (descRel lt) →
      L.filter p = L.takeWhile p := by
  intro L
  induction L with
  | nil => simp
  | cons y L ih =>
    intro hs
    rw [List.sorted_cons] at hs
    cases hp : p y with
    | true =>
      rw [List.filter_cons_of_pos hp, List.takeWhile_cons_of_pos hp, ih hs.2]
    | false =>
      rw [List.filter_cons_of_neg (by simp [hp]),
        List.takeWhile_cons_of_neg (by simp [hp])]
      rw [List.filter_eq_nil_iff]
      intro a ha hpa
      have : p y = true := hclosed y a (hs.1 a ha) hpa
      rw [hp] at this
      exact Bool.false_ne_true this

theorem take_sortDesc_all {α : Type} (lt : α → α → Bool)
    (hasym : ∀ a b, lt a b = true → lt b a = false)
    (htrans : ∀ a b c, lt a b = true → lt b c = true → lt a c = true)
    (hconn : ∀ a b, lt a b = false → lt b a = false → a = b)
    (p : α → Bool)
    (hclosed : ∀ a b, descRel lt a b → p b = true → p a = true)
    (n : Nat) (w : List α) (hcount : n ≤ w.countP p) :
    ∀ y ∈ (sortDesc lt w).take n, p y = true := by
  intro y hy
  have hperm : (sortDesc lt w).countP p = w.countP p :=
    (sortDesc_perm lt w).countP_eq p
  have hft : (sortDesc lt w).filter p = (sortDesc lt w).takeWhile p :=
    filter_eq_takeWhile_sorted lt p hclosed (sortDesc lt w)
      (sortDesc_sorted lt hasym htrans hconn w)
  have hlen : n ≤ ((sortDesc lt w).takeWhile p).length := by
    rw [← hft, ← List.countP_eq_length_filter, hperm]
    exact hcount
  have hsplit : (sortDesc lt w).take n
      = ((sortDesc lt w).takeWhile p).take n := by
    conv_lhs => rw [← List.takeWhile_append_dropWhile (p := p)
      (l := sortDesc lt w)]
    rw [List.take_append_of_le_length hlen]
  rw [hsplit] at hy
  exact List.mem_takeWhile_imp (List.take_subset n _ hy)

theorem topNAcc_cons_absorb {α : Type} (lt : α → α → Bool)
    (hasym : ∀ a b, lt a b = true → lt b a = false)
    (htrans : ∀ a b c, lt a b = true → lt b c = true → lt a c = true)
    (hconn : ∀ a b, lt a b = false → lt b a = false → a = b)
    (n : Nat) (x : α) (u w : List α)
    (hsub : u.Subperm w) (hlen : u.length = n)
    (hall : ∀ y ∈ u, ltLe lt y x = true) :
    topNAcc lt n (x :: w) = topNAcc lt n w := by
  have hcount : n ≤ w.countP (fun z => ltLe lt z x) := by
    obtain ⟨u', hu'perm, hu'sub⟩ := hsub
    have h1 : u'.countP (fun z => ltLe lt z x)
        = u.countP (fun z => ltLe lt z x) :=
      hu'perm.countP_eq _
    have h2 : u.countP (fun z => ltLe lt z x) = u.length :=
      List.countP_eq_length.2 hall
    have h3 : u'.countP (fun z => ltLe lt z x)
        ≤ w.countP (fun z => ltLe lt z x) :=
      List.Sublist.countP_le _ hu'sub
    omega
  have hnlen : n ≤ (sortDesc lt w).length := by
    rw [(sortDesc_perm lt w).length_eq]
    calc n = u.length := hlen.symm
      _ ≤ w.length := hsub.length_le
  show (sortDesc lt (x :: w)).take n = (sortDesc lt w).take n
  have hcons : sortDesc lt (x :: w) = insertDesc lt x (sortDesc lt w) := rfl
  rw [hcons]
  exact take_insertDesc lt hconn x (sortDesc lt w) n
    (sortDesc_sorted lt hasym htrans hconn w) hnlen
    (take_sortDesc_all lt hasym htrans hconn _
      (fun a b hab hb => ltLe_trans lt htrans hconn a b x hab hb)
      n w hcount)

theorem topNAcc_absorb {α : Type} (lt : α → α → Bool)
    (hasym : ∀ a b, lt a b = true → lt b a = false)
    (htrans : ∀ a b c, lt a b = true → lt b c = true → lt a c = true)
    (hconn : ∀ a b, lt a b = false → lt b a = false → a = b)
    (n : Nat) (l t : List α) :
    topNAcc lt n (topNAcc lt n l ++ t) = topNAcc lt n (l ++ t) := by
  by_cases hn : l.length ≤ n
  · have hfull : topNAcc lt n l = sortDesc lt l := by
      unfold topNAcc
      exact List.take_of_length_le (by rw [(sortDesc_perm lt l).length_eq]; exact hn)
    rw [hfull]
    exact topNAcc_congr lt hasym htrans hconn n
      ((sortDesc_perm lt l).append_right t)
  · push_neg at hn
    set S := sortDesc lt l with hS
    have hSlen : n ≤ S.length := by
      rw [hS, (sortDesc_perm lt l).length_eq]
      omega
    have hSsorted : S.Sorted (descRel lt) :=
      sortDesc_sorted lt hasym htrans hconn l
    have hulen : (S.take n).length = n := by
      simp [Nat.min_eq_left hSlen]
    have hdom : ∀ x ∈ S.drop n, ∀ y ∈ S.take n, ltLe lt y x = true := by
      have hpw := hSsorted
      rw [← List.take_append_drop n S] at hpw
      have := (List.pairwise_append.1 hpw).2.2
      intro x hx y hy
      exact this y hy x hx
    have aux : ∀ (v t' : List α),
        (∀ x ∈ v, ∀ y ∈ S.take n, ltLe lt y x = true) →
        topNAcc lt n (S.take n ++ v ++ t') = topNAcc lt n (S.take n ++ t') := by
      intro v
      induction v with
      | nil => intro t' _; simp
      | cons x v' ih =>
        intro t' hv
        have hstep : topNAcc lt n (S.take n ++ (x :: v') ++ t')
            = topNAcc lt n (x :: (S.take n ++ v' ++ t')) := by
          refine topNAcc_congr lt hasym htrans hconn n ?_
          have : S.take n ++ (x :: v') ++ t'
              = S.take n ++ x :: (v' ++ t') := by
            simp
          rw [this]
          have hmid : List.Perm (S.take n ++ x :: (v' ++ t'))
              (x :: (S.take n ++ (v' ++ t'))) := List.perm_middle
          simp only [← List.append_assoc] at hmid
          exact hmid
        rw [hstep,
          topNAcc_cons_absorb lt hasym htrans hconn n x (S.take n)
            (S.take n ++ v' ++ t')
            (by
              have hsl : List.Sublist (S.take n) (S.take n ++ (v' ++ t')) :=
                List.sublist_append_left _ _
              simpa using hsl.subperm)
            hulen (fun y hy => hv x (by simp) y hy)]
        exact ih t' (fun z hz y hy => hv z (by simp [hz]) y hy)
    have hsplit : topNAcc lt n l = S.take n := rfl
    calc topNAcc lt n (topNAcc lt n l ++ t)
        = topNAcc lt n (S.take n ++ t) := by rw [hsplit]
      _ = topNAcc lt n (S.take n ++ S.drop n ++ t) := (aux (S.drop n) t hdom).symm
      _ = topNAcc lt n (S ++ t) := by rw [List.take_append_drop]
      _ = topNAcc lt n (l ++ t) :=
          topNAcc_congr lt hasym htrans hconn n ((sortDesc_perm lt l).append_right t)

theorem foldl_addInput {α : Type} (lt : α → α → Bool)
    (hasym : ∀ a b, lt a b = true → lt b a = false)
    (htrans : ∀ a b c, lt a b = true → lt b c = true → lt a c = true)
    (hconn : ∀ a b, lt a b = false → lt b a = false → a = b)
    (n : Nat) :
    ∀ (l p : List α),
      l.foldl (addInput lt n) (topNAcc lt n p) = topNAcc lt n (p ++ l) := by
  intro l
  induction l with
  | nil => intro p; simp
  | cons x l ih =>
    intro p
    have hstep : addInput lt n (topNAcc lt n p) x = topNAcc lt n (p ++ [x]) := by
      unfold addInput
      exact topNAcc_absorb lt hasym htrans hconn n p [x]
    rw [List.foldl_cons, hstep, ih (p ++ [x])]
    congr 1
    simp

theorem foldl_addInput_nil {α : Type} (lt : α → α → Bool)
    (hasym : ∀ a b, lt a b = true → lt b a = false)
    (htrans : ∀ a b c, lt a b = true → lt b c = true → lt a c = true)
    (hconn : ∀ a b, lt a b = false → lt b a = false → a = b)
    (n : Nat) (l : List α) :
    l.foldl (addInput lt n) [] = topNAcc lt n l := by
  have h0 : (topNAcc lt n ([] : List α)) = [] := by
    simp [topNAcc, sortDesc]
  have := foldl_addInput lt hasym htrans hconn n l []
  rw [h0] at this
  simpa using this

theorem evalTree_eq_topNAcc {α : Type} (lt : α → α → Bool)
    (hasym : ∀ a b, lt a b = true → lt b a = false)
    (htrans : ∀ a b c, lt a b = true → lt b c = true → lt a c = true)
    (hconn : ∀ a b, lt a b = false → lt b a = false → a = b)
    (n : Nat) :
    ∀ tr : MergeTree α, evalTree lt n tr = topNAcc lt n tr.flatten := by
  intro tr
  induction tr with
  | leaf shard => exact foldl_addInput_nil lt hasym htrans hconn n shard
  | node L R ihl ihr =>
    show mergeAccs lt n (evalTree lt n L) (evalTree lt n R)
      = topNAcc lt n (L.flatten ++ R.flatten)
    rw [ihl, ihr]
    unfold mergeAccs
    calc topNAcc lt n (topNAcc lt n L.flatten ++ topNAcc lt n R.flatten)
        = topNAcc lt n (L.flatten ++ topNAcc lt n R.flatten) :=
          topNAcc_absorb lt hasym htrans hconn n L.flatten _
      _ = topNAcc lt n (topNAcc lt n R.flatten ++ L.flatten) :=
          topNAcc_congr lt hasym htrans hconn n List.perm_append_comm
      _ = topNAcc lt n (R.flatten ++ L.flatten) :=
          topNAcc_absorb lt hasym htrans hconn n R.flatten _
      _ = topNAcc lt n (L.flatten ++ R.flatten) :=
          topNAcc_congr lt hasym htrans hconn n List.perm_append_comm

/-! ### The tie-free witness comparator is a strict total order -/

theorem lexCountLt_asymm (a b : Nat × String) :
    lexCountLt a b = true → lexCountLt b a = false := by
  unfold lexCountLt
  simp only [Bool.or_eq_true, Bool.and_eq_true, decide_eq_true_eq,
    Bool.or_eq_false_iff, Bool.and_eq_false_iff, decide_eq_false_iff_not]
  rintro (h | ⟨heq, hlt⟩)
  · exact ⟨by omega, Or.inl (by omega)⟩
  · exact ⟨by omega, Or.inr (not_lt.2 (le_of_lt hlt))⟩

theorem lexCountLt_trans (a b c : Nat × String) :
    lexCountLt a b = true → lexCountLt b c = true →
    lexCountLt a c = true := by
  unfold lexCountLt
  simp only [Bool.or_eq_true, Bool.and_eq_true, decide_eq_true_eq]
  rintro (h1 | ⟨he1, hl1⟩) (h2 | ⟨he2, hl2⟩)
  · exact Or.inl (by omega)
  · exact Or.inl (by omega)
  · exact Or.inl (by omega)
  · exact Or.inr ⟨by omega, lt_trans hl1 hl2⟩

theorem lexCountLt_conn (a b : Nat × String) :
    lexCountLt a b = false → lexCountLt b a = false → a = b := by
  unfold lexCountLt
  simp only [Bool.or_eq_false_iff, Bool.and_eq_false_iff,
    decide_eq_false_iff_not]
  rintro ⟨hc1, h1⟩ ⟨hc2, h2⟩
  have hceq : a.1 = b.1 := by omega
  have hseq : a.2.data = b.2.data := by
    rcases h1 with h1 | h1
    · exact absurd hceq h1
    · rcases h2 with h2 | h2
      · exact absurd hceq.symm h2
      · exact le_antisymm (not_lt.1 h2) (not_lt.1 h1)
  have hstr : a.2 = b.2 := by
    rcases a with ⟨a1, ⟨ad⟩⟩
    rcases b with ⟨b1, ⟨bd⟩⟩
    simp only at hseq
    rw [hseq]
  exact Prod.ext hceq hstr

/-! ### Stability of the tag-to-PCollection cache -/

theorem lookupOrCreate_stable (st : DoState) (key : Option String) :
    (lookupOrCreate st key).2.tags = st.tags ∧
    (lookupOrCreate st key).2.mainTag = st.mainTag ∧
    lookupOrCreate (lookupOrCreate st key).2 key = lookupOrCreate st key := by
  unfold lookupOrCreate
  cases h0 : st.pcolls.lookup key with
  | some pid => simp [lookupOrCreate, h0]
  | none =>
    refine ⟨rfl, rfl, ?_⟩
    simp [lookupOrCreate, List.lookup]

theorem lookupOrCreate_cache (st : DoState) (key : Option String) :
    ((lookupOrCreate st key).2).pcolls.lookup key
      = some (lookupOrCreate st key).1 := by
  unfold lookupOrCreate
  cases h0 : st.pcolls.lookup key with
  | some pid => simpa using h0
  | none => simp [List.lookup]

theorem lookupOrCreate_mono (st : DoState) (key k : Option String) (p : Nat)
    (hk : st.pcolls.lookup k = some p) :
    ((lookupOrCreate st key).2).pcolls.lookup k = some p := by
  unfold lookupOrCreate
  cases h0 : st.pcolls.lookup key with
  | some pid => simpa using hk
  | none =>
    have hne : (k == key) = false := by
      refine beq_eq_false_iff_ne.2 ?_
      intro he
      rw [he, h0] at hk
      exact Option.noConfusion hk
    simp [List.lookup, hne, hk]

theorem getItem_preserves (st st' : DoState) (t : PyTag) (q : Nat)
    (h : getItem st t = .ok (q, st')) :
    st'.tags = st.tags ∧ st'.mainTag = st.mainTag ∧
    ∀ (k : Option String) (p : Nat),
      st.pcolls.lookup k = some p → st'.pcolls.lookup k = some p := by
  unfold getItem at h
  by_cases h1 : coerceTag t = st.mainTag
  · rw [if_pos h1] at h
    have hps : lookupOrCreate st none = (q, st') := by injection h
    obtain ⟨hts0, hmt0, _⟩ := lookupOrCreate_stable st none
    rw [hps] at hts0 hmt0
    refine ⟨hts0, hmt0, ?_⟩
    intro k p hk
    have hm := lookupOrCreate_mono st none k p hk
    rw [hps] at hm
    exact hm
  · rw [if_neg h1] at h
    by_cases h2 : (!st.tags.isEmpty && (match coerceTag t with
        | some s => !(st.tags.contains s)
        | none => true)) = true
    · rw [if_pos h2] at h
      exact absurd h (by simp)
    · rw [if_neg h2] at h
      have hps : lookupOrCreate st (coerceTag t) = (q, st') := by injection h
      obtain ⟨hts0, hmt0, _⟩ := lookupOrCreate_stable st (coerceTag t)
      rw [hps] at hts0 hmt0
      refine ⟨hts0, hmt0, ?_⟩
      intro k p hk
      have hm := lookupOrCreate_mono st (coerceTag t) k p hk
      rw [hps] at hm
      exact hm

theorem getItem_caches (st st' : DoState) (tag : PyTag) (p : Nat)
    (h : getItem st tag = .ok (p, st')) :
    st'.pcolls.lookup (normKey st tag) = some p := by
  unfold getItem at h
  unfold normKey
  by_cases h1 : coerceTag tag = st.mainTag
  · rw [if_pos h1] at h
    rw [if_pos h1]
    have hps : lookupOrCreate st none = (p, st') := by injection h
    have hc := lookupOrCreate_cache st none
    rw [hps] at hc
    exact hc
  · rw [if_neg h1] at h
    rw [if_neg h1]
    by_cases h2 : (!st.tags.isEmpty && (match coerceTag tag with
        | some s => !(st.tags.contains s)
        | none => true)) = true
    · rw [if_pos h2] at h
      exact absurd h (by simp)
    · rw [if_neg h2] at h
      have hps : lookupOrCreate st (coerceTag tag) = (p, st') := by injection h
      have hc := lookupOrCreate_cache st (coerceTag tag)
      rw [hps] at hc
      exact hc

theorem runTags_preserves (ts : List PyTag) :
    ∀ (st : DoState),
      (runTags st ts).tags = st.tags ∧
      (runTags st ts).mainTag = st.mainTag ∧
      ∀ (k : Option String) (p : Nat),
        st.pcolls.lookup k = some p →
        (runTags st ts).pcolls.lookup k = some p := by
  induction ts with
  | nil => exact fun st => ⟨rfl, rfl, fun k p hk => hk⟩
  | cons t ts ih =>
    intro st
    unfold runTags
    cases hg : getItem st t with
    | error e => exact ih st
    | ok pr =>
      obtain ⟨q, st'⟩ := pr
      obtain ⟨h1, h2, h3⟩ := getItem_preserves st st' t q hg
      obtain ⟨g1, g2, g3⟩ := ih st'
      exact ⟨g1.trans h1, g2.trans h2,
        fun k p hk => g3 k p (h3 k p hk)⟩

theorem getItem_cached (st s : DoState) (tag : PyTag) (p : Nat)
    (htags : s.tags = st.tags) (hmain : s.mainTag = st.mainTag)
    (hca : s.pcolls.lookup (normKey st tag) = some p)
    (hok : ∃ q st', getItem st tag = .ok (q, st')) :
    getItem s tag = .ok (p, s) := by
  unfold normKey at hca
  unfold getItem
  by_cases h1 : coerceTag tag = st.mainTag
  · rw [if_pos h1] at hca
    rw [if_pos (by rw [hmain]; exact h1)]
    unfold lookupOrCreate
    rw [hca]
  · rw [if_neg h1] at hca
    obtain ⟨q, st', hq⟩ := hok
    unfold getItem at hq
    rw [if_neg h1] at hq
    by_cases h2 : (!st.tags.isEmpty && (match coerceTag tag with
        | some s => !(st.tags.contains s)
        | none => true)) = true
    · rw [if_pos h2] at hq
      exact absurd hq (by simp)
    · rw [if_neg (by rw [hmain]; exact h1), if_neg (by rw [htags]; exact h2)]
      unfold lookupOrCreate
      rw [hca]

theorem mem_setAdd_self (s : String) (l : List String) : s ∈ setAdd s l := by
  unfold setAdd
  by_cases h : s ∈ l
  · simp only [if_pos h]
    exact h
  · simp [h]

/-! ### Claim theorems -/

/-- C1: the `ComputeTopSessions` pipeline with sampling threshold 1.0,
applied to the nine Wikipedia edit events of the test (user1 editing at
t=0.0, 0.001, 0.002; user2 at t=0.0, 0.001, 3.601, 3.602 and again at
t=7200.0; user3 at t=3024.0), with a 1-hour session gap, 30-day fixed
windows and a top-10-per-window combine, outputs exactly the four
expected formatted records, in some order. -/
theorem claim1_compute_top_sessions :
    (computeTopSessions testEdits).Perm expectedTopSessions := by
  decide

/-- C2 (counterexample): with a comparator that ties distinct elements
(pairs ordered by count alone), the merge order changes the final
top-1 sequence: merging the shards `[(1,"b")]` and `[(1,"a")]` in that
order yields `[(1,"b")]`, while folding the same elements
`[(1,"a"), (1,"b")]` through one accumulator yields `[(1,"a")]` — so
the claim's universal merge-order independence fails as stated. -/
theorem claim2_counterexample :
    List.Perm
      (MergeTree.flatten
        (MergeTree.node (.leaf [((1 : Nat), "b")]) (.leaf [((1 : Nat), "a")])))
      [((1 : Nat), "a"), ((1 : Nat), "b")] ∧
    evalTree countOnlyLt 1
        (MergeTree.node (.leaf [((1 : Nat), "b")]) (.leaf [((1 : Nat), "a")]))
      ≠ List.foldl (addInput countOnlyLt 1) []
          [((1 : Nat), "a"), ((1 : Nat), "b")] := by
  constructor
  · decide
  · decide

/-- C2 (amended): provided the supplied comparator is a strict total
order — asymmetric, transitive, and connecting any two elements it
does not strictly order (no ties between distinct elements) — then for
every finite input, every partition of it into shards and every merge
order of the per-shard top-N accumulators, the distributed combine
yields exactly the same final top-N sequence as folding all elements
through one single accumulator. -/
theorem claim2_top_merge_order_independent {α : Type}
    (lt : α → α → Bool) (n : Nat)
    (hasym : ∀ a b, lt a b = true → lt b a = false)
    (htrans : ∀ a b c, lt a b = true → lt b c = true → lt a c = true)
    (hconn : ∀ a b, lt a b = false → lt b a = false → a = b)
    (tr : MergeTree α) (l : List α)
    (hperm : List.Perm tr.flatten l) :
    evalTree lt n tr = List.foldl (addInput lt n) [] l := by
  rw [evalTree_eq_topNAcc lt hasym htrans hconn n tr,
    foldl_addInput_nil lt hasym htrans hconn n l]
  exact topNAcc_congr lt hasym htrans hconn n hperm

/-- C2 (witness): the amended theorem applied to the tie-free instance
of the claim — element counts `{to:3, this:2, that:1}`, N = 3, ordered
by count (descending) with a tie-free comparator: a two-shard
partition merged in an order different from the input order still
yields exactly `[(3,"to"), (2,"this"), (1,"that")]`. -/
theorem claim2_top_merge_witness :
    evalTree lexCountLt 3
        (MergeTree.node (.leaf [((2 : Nat), "this")])
          (.node (.leaf [((3 : Nat), "to")]) (.leaf [((1 : Nat), "that")])))
      = [((3 : Nat), "to"), ((2 : Nat), "this"), ((1 : Nat), "that")] := by
  have h := claim2_top_merge_order_independent lexCountLt 3
    lexCountLt_asymm lexCountLt_trans lexCountLt_conn
    (MergeTree.node (.leaf [((2 : Nat), "this")])
      (.node (.leaf [((3 : Nat), "to")]) (.leaf [((1 : Nat), "that")])))
    [((3 : Nat), "to"), ((2 : Nat), "this"), ((1 : Nat), "that")]
    (by decide)
  rw [h]
  decide

/-- C3 (counterexample): a `DoOutputsTuple` constructed with an empty
declared side-tag collection does not raise on an undeclared tag: with
main tag `"main"` and no declared tags, looking up `"c"` (which is
neither the main tag nor a declared side tag) succeeds and returns a
fresh PCollection instead of raising `ValueError`. -/
theorem claim3_counterexample :
    (DoState.mk [] (some "main") [] [] 0).tags = [] ∧
    coerceTag (.pystr "c") ≠ (DoState.mk [] (some "main") [] [] 0).mainTag ∧
    getItem (DoState.mk [] (some "main") [] [] 0) (.pystr "c")
      = .ok (0, DoState.mk [] (some "main") [(some "c", 0)] ["c"] 1) := by
  refine ⟨rfl, by decide, rfl⟩

/-- C3 (amended): for every `DoOutputsTuple` whose declared side-tag
collection is non-empty, and every tag that is neither the designated
main tag nor one of the declared side tags, looking that tag up raises
a `ValueError` instead of returning a PCollection. -/
theorem claim3_undeclared_tag_is_error (st : DoState) (tag : PyTag)
    (htags : st.tags ≠ [])
    (hmain : coerceTag tag ≠ st.mainTag)
    (hside : ∀ s, coerceTag tag = some s → s ∉ st.tags) :
    getItem st tag
      = .error "Tag is neither the main tag nor any of the side tags" := by
  have hcond : (!st.tags.isEmpty && (match coerceTag tag with
      | some s => !(st.tags.contains s)
      | none => true)) = true := by
    have h1 : st.tags.isEmpty = false := by
      cases hts : st.tags with
      | nil => exact absurd hts htags
      | cons a l => rfl
    rw [h1]
    cases hct : coerceTag tag with
    | none => rfl
    | some s =>
      have hns := hside s hct
      simp [hns]
  unfold getItem
  rw [if_neg hmain, if_pos hcond]

/-- C3 (witness): the amended theorem applied to a concrete
`DoOutputsTuple` with declared side tags `{a, b}`, main tag `"m"` and
lookup tag `"c"`. -/
theorem claim3_undeclared_tag_witness :
    getItem (DoState.mk ["a", "b"] (some "m") [] [] 0) (.pystr "c")
      = .error "Tag is neither the main tag nor any of the side tags" := by
  exact claim3_undeclared_tag_is_error
    (DoState.mk ["a", "b"] (some "m") [] [] 0) (.pystr "c")
    (by decide) (by decide)
    (fun s hs => by
      have hsc : s = "c" := by
        simp [coerceTag] at hs
        exact hs.symm
      rw [hsc]
      decide)

/-- C5: at most one PCollection is ever created per tag — once a
lookup of a tag has returned a PCollection `p`, every subsequent
lookup of that same tag, after ANY interleaved sequence of further
lookups of arbitrary tags, still returns the identical cached `p` and
leaves the state unchanged (so the creation branch is never taken
again for that tag); moreover, for an Output Tuple built with side
tags `{a, b}` and main tag `"m"`, looking up `a`, `b`, and the main
tag returns three pairwise distinct PCollections (ids 0, 1, 2). -/
theorem claim5_one_pcollection_per_tag :
    (∀ (st st' : DoState) (tag : PyTag) (p : Nat),
        getItem st tag = .ok (p, st') →
        ∀ ts : List PyTag,
          getItem (runTags st' ts) tag = .ok (p, runTags st' ts)) ∧
    lookupIds (DoState.mk ["a", "b"] (some "m") [] [] 0)
        [.pystr "a", .pystr "b", .pystr "m"] = some [0, 1, 2] ∧
    List.Pairwise (fun a b => a ≠ b) [0, 1, 2] := by
  refine ⟨?_, by decide, by decide⟩
  intro st st' tag p h ts
  obtain ⟨hpt, hpm, _⟩ := getItem_preserves st st' tag p h
  obtain ⟨hrt, hrm, hrc⟩ := runTags_preserves ts st'
  exact getItem_cached st (runTags st' ts) tag p
    (hrt.trans hpt) (hrm.trans hpm)
    (hrc _ p (getItem_caches st st' tag p h))
    ⟨p, st', h⟩

/-- C5 (witness): the persistence half applied concretely — after the
first lookup of tag `"a"` returned PCollection 0 and an interleaved
lookup of the different tag `"b"` created PCollection 1, looking `"a"`
up again still returns the same PCollection 0 and leaves the state
unchanged. -/
theorem claim5_one_pcollection_witness :
    getItem (DoState.mk ["a", "b"] (some "m")
        [(some "b", 1), (some "a", 0)] ["b", "a"] 2) (.pystr "a")
      = .ok (0, DoState.mk ["a", "b"] (some "m")
          [(some "b", 1), (some "a", 0)] ["b", "a"] 2) := by
  exact claim5_one_pcollection_per_tag.1
    (DoState.mk ["a", "b"] (some "m") [] [] 0)
    (DoState.mk ["a", "b"] (some "m") [(some "a", 0)] ["a"] 1)
    (.pystr "a") 0 rfl [.pystr "b"]

/-- C6: integer tags are coerced to their string form before any
lookup logic runs, so looking up the integer tag `i` is the same
lookup — same PCollection, same resulting state — as looking up the
textual tag `str(i)`. -/
theorem claim6_int_tag_coercion (st : DoState) (i : Int) :
    getItem st (.pyint i) = getItem st (.pystr (toString i)) := rfl

/-- C9: if a `DoOutputsTuple` is constructed with an empty (or absent)
collection of declared side tags, looking up any tag succeeds rather
than raising; on a not-yet-cached tag the lookup creates the fresh
PCollection (`nextId`), caches it under the normalized tag, and for
every tag other than the main tag also records the tag in the
producing transform's `side_output_tags`. -/
theorem claim9_empty_tags_lookup_succeeds (st : DoState) (tag : PyTag)
    (htags : st.tags = []) :
    getItem st tag = .ok (lookupOrCreate st (normKey st tag)) ∧
    (st.pcolls.lookup (normKey st tag) = none →
      (lookupOrCreate st (normKey st tag)).1 = st.nextId ∧
      (lookupOrCreate st (normKey st tag)).2.pcolls.lookup (normKey st tag)
        = some st.nextId ∧
      ∀ s, normKey st tag = some s →
        s ∈ (lookupOrCreate st (normKey st tag)).2.sideOutputTags) := by
  constructor
  · unfold getItem normKey
    by_cases h1 : coerceTag tag = st.mainTag
    · rw [if_pos h1, if_pos h1]
    · rw [if_neg h1, if_neg h1]
      have h2 : (!st.tags.isEmpty && (match coerceTag tag with
          | some s => !(st.tags.contains s)
          | none => true)) = false := by
        rw [htags]
        rfl
      rw [if_neg (by rw [h2]; exact Bool.false_ne_true)]
  · intro hfresh
    unfold lookupOrCreate
    rw [hfresh]
    refine ⟨rfl, ?_, ?_⟩
    · simp [List.lookup]
    · intro s hs
      rw [hs]
      exact mem_setAdd_self s st.sideOutputTags

/-- C9 (witness): the theorem applied to a concrete `DoOutputsTuple`
with no declared side tags, main tag `"m"`, looking up the undeclared
tag `"c"`. -/
theorem claim9_empty_tags_witness :
    getItem (DoState.mk [] (some "m") [] [] 0) (.pystr "c")
      = .ok (lookupOrCreate (DoState.mk [] (some "m") [] [] 0)
          (normKey (DoState.mk [] (some "m") [] [] 0) (.pystr "c"))) :=
  (claim9_empty_tags_lookup_succeeds
    (DoState.mk [] (some "m") [] [] 0) (.pystr "c") rfl).1

/-- C4: resolving an `AsSingleton` side input whose source Collection
is empty is not an error: with a supplied default the resolution
yields that default, and with no default it yields the
`EmptySideInput` sentinel, which is distinguishable from every user
value. -/
theorem claim4_assingleton_empty_resolution {α : Type} (p : PColl) (d : α) :
    resolveSingleton (mkAsSingletonDefault p d) [] = .value d ∧
    resolveSingleton (mkAsSingleton α p) [] = .emptySentinel ∧
    (∀ v : α,
      (SideInputResult.value v) ≠ (.emptySentinel : SideInputResult α)) := by
  refine ⟨rfl, rfl, ?_⟩
  intro v h
  exact SideInputResult.noConfusion h

/-- C7: `AsList(pcoll)` is exactly `AsSingleton` (with no default)
around the PCollection obtained by applying the `ToList` combiner
transform to `pcoll`, and `AsDict(pcoll)` is exactly `AsSingleton`
(with no default) around the `ToDict` application — both are derived
from the combiner application plus `AsSingleton`, not primitive
markers. -/
theorem claim7_aslist_asdict_derived (p : PColl) :
    (asList p).pvalue = PColl.applied .toList p ∧
    (asList p).defaultValue = none ∧
    (asDict p).pvalue = PColl.applied .toDict p ∧
    (asDict p).defaultValue = none ∧
    asList p = mkAsSingleton PyVal (PColl.applied .toList p) ∧
    asDict p = mkAsSingleton PyVal (PColl.applied .toDict p) :=
  ⟨rfl, rfl, rfl, rfl, rfl, rfl⟩

/-- C8: materializing a PCollection's contents when no runner is
supplied to the call and no runner is bound to the owning pipeline
raises `RunnerError`, and no part of the graph is executed (the
execution flag stays `false`). -/
theorem claim8_no_runner_is_error (p : PColl) :
    getValues none p = (.error .runnerError, false) := rfl

/-- C10: `AsSingleton` marks "no default supplied" with the private
`_NO_DEFAULT` sentinel, not with `None`: a marker constructed with
`default_value=None` carries Python's `None` as a genuine default (an
empty source resolves to `None`), and only a marker constructed
without the `default_value` argument resolves an empty source to the
`EmptySideInput` sentinel, which differs from `None`. -/
theorem claim10_none_default_is_genuine (p : PColl) :
    resolveSingleton (mkAsSingletonDefault p PyVal.pynone) []
      = .value PyVal.pynone ∧
    (mkAsSingletonDefault p PyVal.pynone).defaultValue
      = some PyVal.pynone ∧
    resolveSingleton (mkAsSingleton PyVal p) [] = .emptySentinel ∧
    (mkAsSingleton PyVal p).defaultValue = none ∧
    SideInputResult.value PyVal.pynone
      ≠ (.emptySentinel : SideInputResult PyVal) := by
  refine ⟨rfl, rfl, rfl, rfl, ?_⟩
  intro h
  exact SideInputResult.noConfusion h

end DataflowSDK
